import Mathlib

/-!
Verification of the pairwise-preference rating and pair-selection engine of
the `eacl26-pref-arena` repository.

The development shallowly embeds the JavaScript core:
* `docs/assets/js/rating.js` (uncertainty-aware Elo update `updatePair`),
* the vote / undo / history-normalization logic of
  `src/web/legacy/unified_app.js`,
* the pair selector `src/web/shared/selector.js`.

JavaScript numbers are modelled as rationals (`ℚ`).  The only transcendental
operation in the core, `Math.pow(10, x)` inside the logistic curve, is kept
abstract: every definition that needs it takes an explicit exponential
function `pow10 : ℚ → ℚ` as a parameter, and theorems that depend on facts
about the real exponential (such as `10 ^ 0 = 1` or positivity) take them as
hypotheses, which the real exponential satisfies.

`Math.random()`-driven choices in the selector are modelled by an explicit
oracle (`SelOracle`): each random draw is an arbitrary natural number
supplied by the oracle, so theorems quantified over oracles cover every
possible run of the JavaScript code.  Timestamps (`ts` fields) are omitted:
no claim concerns them.
-/

namespace PrefArena

/-! ## Rating model (`docs/assets/js/rating.js`) -/

def DEFAULT_MU : ℚ := 1500

def DEFAULT_SIGMA : ℚ := 350

def MIN_SIGMA : ℚ := 60

def SIGMA_DECAY : ℚ := 93 / 100

/-- `BASE_K` from `unified_app.js`. -/
def BASE_K : ℚ := 32

/-- `JOINT_FEEDBACK_SCALE` from `unified_app.js`. -/
def JOINT_FEEDBACK_SCALE : ℚ := 45 / 100

/-- `clamp(x, lo, hi)` (both `rating.js` and `unified_app.js` define it as
`Math.max(lo, Math.min(hi, x))`). -/
def clamp (x lo hi : ℚ) : ℚ := max lo (min hi x)

/-- `logistic(x) = 1 / (1 + Math.pow(10, -x / 400))`, with the base-10
exponential abstracted as `pow10`. -/
def logistic (pow10 : ℚ → ℚ) (x : ℚ) : ℚ := 1 / (1 + pow10 (-x / 400))

/-- One item's rating record `{mu, sigma, n, wins, losses, ties}`. -/
structure Rating where
  mu : ℚ
  sigma : ℚ
  n : ℕ
  wins : ℕ
  losses : ℕ
  ties : ℕ
deriving DecidableEq, Repr

/-- Default rating created lazily by `getRating`. -/
def defaultRating : Rating :=
  { mu := DEFAULT_MU, sigma := DEFAULT_SIGMA, n := 0, wins := 0, losses := 0, ties := 0 }

/-- `updatePair(A, B, outcome, {baseK})` from `rating.js`, as a pure function
returning the two mutated records. -/
def updatePair (pow10 : ℚ → ℚ) (A B : Rating) (outcome baseK : ℚ) : Rating × Rating :=
  let KA := baseK * clamp (A.sigma / DEFAULT_SIGMA) (3/5) (9/5)
  let KB := baseK * clamp (B.sigma / DEFAULT_SIGMA) (3/5) (9/5)
  let pA := logistic pow10 (A.mu - B.mu)
  let pB := 1 - pA
  let dA := KA * (outcome - pA)
  let dB := KB * ((1 - outcome) - pB)
  let tieFactor : ℚ := if outcome = 1/2 then 49/50 else 1
  ({ A with
      mu := A.mu + dA
      sigma := max MIN_SIGMA (A.sigma * SIGMA_DECAY * tieFactor)
      n := A.n + 1 },
   { B with
      mu := B.mu + dB
      sigma := max MIN_SIGMA (B.sigma * SIGMA_DECAY * tieFactor)
      n := B.n + 1 })

/-- `applyJointAdjustment(rating, direction, kMult)` from `unified_app.js`. -/
def applyJointAdjustment (r : Rating) (direction kMult : ℚ) : Rating :=
  let effectiveK := BASE_K * kMult * clamp (r.sigma / DEFAULT_SIGMA) (3/5) (9/5)
  { r with
      mu := r.mu + direction * effectiveK * JOINT_FEEDBACK_SCALE
      sigma := max MIN_SIGMA (r.sigma * SIGMA_DECAY * (99/100))
      n := r.n + 1 }

/-- `applyOutcomeCounters(rA, rB, outcome)` from `unified_app.js`. -/
def applyOutcomeCounters (rA rB : Rating) (outcome : ℚ) : Rating × Rating :=
  if outcome = 1 then
    ({ rA with wins := rA.wins + 1 }, { rB with losses := rB.losses + 1 })
  else if outcome = 0 then
    ({ rA with losses := rA.losses + 1 }, { rB with wins := rB.wins + 1 })
  else
    ({ rA with ties := rA.ties + 1 }, { rB with ties := rB.ties + 1 })

/-- The standard-vote sequence: `updatePair` followed by
`applyOutcomeCounters` (as performed by `vote` for `A/STRONG_A/B/STRONG_B`). -/
def stdApply (pow10 : ℚ → ℚ) (A B : Rating) (outcome baseK : ℚ) : Rating × Rating :=
  let u := updatePair pow10 A B outcome baseK
  applyOutcomeCounters u.1 u.2 outcome

/-! ## The ratings map (`state.ratings`)

The JavaScript object keyed by item id is modelled as an association list in
insertion order; `getRating` reads with lazy default, `setRating` writes
back.  All rating-state claims only look at the map through `getRating`. -/

abbrev Ratings := List (String × Rating)

/-- Read an item's rating, defaulting like `getRating` does on first
reference. -/
def getRating : Ratings → String → Rating
  | [], _ => defaultRating
  | p :: ms, id => if p.1 = id then p.2 else getRating ms id

/-- Write back an item's rating (JavaScript `state.ratings[id] = r`):
replace the existing key's value, or append a new key. -/
def setRating : Ratings → String → Rating → Ratings
  | [], id, r => [(id, r)]
  | p :: ms, id, r => if p.1 = id then (id, r) :: ms else p :: setRating ms id r

/-! ## History entries and votes (`unified_app.js`) -/

/-- A normalized / freshly-recorded history entry (the `ts` timestamp is
omitted; no claim concerns it).  For entries with a `null` outcome the ids
may be absent, which is why `a` and `b` stay optional. -/
structure Entry where
  a : Option String
  b : Option String
  outcome : Option ℚ
  choice : String
  kMult : ℚ
  neitherPenaltyApplied : Bool
deriving DecidableEq, Repr

/-- The seven choice labels accepted by `vote`. -/
inductive Choice where
  | A | STRONG_A | B | STRONG_B | BOTH | NEITHER | SKIP
deriving DecidableEq, Repr

/-- The label string stored in the history entry for each choice. -/
def choiceLabel : Choice → String
  | .A => "A"
  | .STRONG_A => "STRONG_A"
  | .B => "B"
  | .STRONG_B => "STRONG_B"
  | .BOTH => "BOTH"
  | .NEITHER => "NEITHER"
  | .SKIP => "SKIP"

/-- The `outcome` field of `vote`'s choice map. -/
def choiceOutcome : Choice → Option ℚ
  | .A => some 1
  | .STRONG_A => some 1
  | .B => some 0
  | .STRONG_B => some 0
  | .BOTH => some (1/2)
  | .NEITHER => some (1/2)
  | .SKIP => none

/-- The `kMult` field of `vote`'s choice map. -/
def choiceKMult : Choice → ℚ
  | .A => 1
  | .STRONG_A => 9/5
  | .B => 1
  | .STRONG_B => 9/5
  | .BOTH => 4/5
  | .NEITHER => 6/5
  | .SKIP => 0

/-- The history entry that `vote` pushes for choice `c` on the current pair
`(a, b)` (all branches of `vote` push `neitherPenaltyApplied: false`). -/
def entryOfVote (c : Choice) (a b : String) : Entry :=
  { a := some a, b := some b, outcome := choiceOutcome c, choice := choiceLabel c,
    kMult := choiceKMult c, neitherPenaltyApplied := false }

/-- A vote event: a choice on a (distinct) current pair. -/
structure Vote where
  c : Choice
  a : String
  b : String
deriving DecidableEq, Repr

/-- The rating-map effect of `vote(choice)` on current pair `(a, b)`:
joint adjustment for `BOTH`/`NEITHER`, `updatePair` with
`baseK = BASE_K * kMult` otherwise, then outcome counters; `SKIP` leaves the
ratings untouched. -/
def voteApply (pow10 : ℚ → ℚ) (m : Ratings) (v : Vote) : Ratings :=
  match choiceOutcome v.c with
  | none => m
  | some oc =>
    let rA := getRating m v.a
    let rB := getRating m v.b
    let upd : Rating × Rating :=
      if v.c = Choice.BOTH then
        (applyJointAdjustment rA 1 (choiceKMult v.c),
         applyJointAdjustment rB 1 (choiceKMult v.c))
      else if v.c = Choice.NEITHER then
        (applyJointAdjustment rA (-1) (choiceKMult v.c),
         applyJointAdjustment rB (-1) (choiceKMult v.c))
      else
        updatePair pow10 rA rB oc (BASE_K * choiceKMult v.c)
    let cnt := applyOutcomeCounters upd.1 upd.2 oc
    setRating (setRating m v.a cnt.1) v.b cnt.2

/-- Incremental application of a sequence of votes (the session's normal
operation). -/
def applyVotes (pow10 : ℚ → ℚ) (m : Ratings) (vs : List Vote) : Ratings :=
  vs.foldl (voteApply pow10) m

/-- The history produced by a sequence of votes. -/
def historyOf (vs : List Vote) : List Entry :=
  vs.map (fun v => entryOfVote v.c v.a v.b)

/-- The body of `undo`'s replay loop, restricted to its rating effect: a
`null`-outcome entry changes nothing; a `BOTH`/`NEITHER` entry replays the
joint adjustment; any other entry replays `updatePair` with
`baseK = BASE_K * kMult`, followed by the flat `-10` legacy neither penalty
when `neitherPenaltyApplied` is set; finally the outcome counters are
applied.  (A missing id would be coerced to the object key `"undefined"` by
JavaScript, which the `getD` mirrors; normalization guarantees it cannot
happen for entries with a non-null outcome.) -/
def replayEntry (pow10 : ℚ → ℚ) (m : Ratings) (e : Entry) : Ratings :=
  match e.outcome with
  | none => m
  | some oc =>
    let aId := e.a.getD "undefined"
    let bId := e.b.getD "undefined"
    let rA := getRating m aId
    let rB := getRating m bId
    let upd : Rating × Rating :=
      if e.choice = "BOTH" then
        (applyJointAdjustment rA 1 e.kMult, applyJointAdjustment rB 1 e.kMult)
      else if e.choice = "NEITHER" then
        (applyJointAdjustment rA (-1) e.kMult, applyJointAdjustment rB (-1) e.kMult)
      else
        let u := updatePair pow10 rA rB oc (BASE_K * e.kMult)
        (if e.neitherPenaltyApplied then { u.1 with mu := u.1.mu - 10 } else u.1,
         if e.neitherPenaltyApplied then { u.2 with mu := u.2.mu - 10 } else u.2)
    let cnt := applyOutcomeCounters upd.1 upd.2 oc
    setRating (setRating m aId cnt.1) bId cnt.2

/-- Full replay from default ratings (`undo` resets `state.ratings = {}` and
replays). -/
def replayAll (pow10 : ℚ → ℚ) (es : List Entry) : Ratings :=
  es.foldl (replayEntry pow10) []

/-- The rating state `undo` reconstructs from a history: drop the last entry
and replay the rest from defaults. -/
def undoRatings (pow10 : ℚ → ℚ) (es : List Entry) : Ratings :=
  replayAll pow10 es.dropLast

/-! ## Full controller state (ratings + history), for the vote claims -/

structure AppState where
  ratings : Ratings
  history : List Entry
deriving DecidableEq, Repr

/-- `vote(choice)` on the current pair `(a, b)`: apply the rating effect and
append exactly one history entry (every recognized choice, `SKIP` included,
pushes one entry). -/
def vote (pow10 : ℚ → ℚ) (st : AppState) (c : Choice) (a b : String) : AppState :=
  { ratings := voteApply pow10 st.ratings ⟨c, a, b⟩,
    history := st.history ++ [entryOfVote c a b] }

/-! ## History normalization (`normalizeHistoryEntry`) -/

/-- A raw, persisted history entry before normalization.  `none` stands for
an absent / non-string / non-number field, matching the `typeof` guards in
the source. -/
structure RawEntry where
  a : Option String
  b : Option String
  outcome : Option ℚ
  choice : Option String
  kMult : Option ℚ
  neitherPenaltyApplied : Bool
deriving DecidableEq, Repr

/-- JavaScript falsiness of an optional id (`!h.a`): absent or empty. -/
def strFalsy : Option String → Bool
  | none => true
  | some s => s = ""

/-- `normalizeHistoryEntry(h)` from `unified_app.js`: drop entries with a
non-null outcome but a missing id; backfill `choice`/`kMult` from the
outcome; force `neitherPenaltyApplied` for `NEITHER` entries. -/
def normalizeHistoryEntry (h : RawEntry) : Option Entry :=
  if h.outcome.isSome ∧ (strFalsy h.a ∨ strFalsy h.b) then none
  else
    let choice0 : Option String :=
      match h.choice with
      | some s => if s = "" then none else some s
      | none => none
    let choice : String :=
      match choice0 with
      | some s => s
      | none =>
        if h.outcome = some 1 then "A"
        else if h.outcome = some 0 then "B"
        else if h.outcome = some (1/2) then "BOTH"
        else "SKIP"
    let kMult : ℚ :=
      match h.kMult with
      | some k => k
      | none =>
        if h.outcome = some 1 ∨ h.outcome = some 0 then 1
        else if h.outcome = some (1/2) then 3/4
        else 0
    let npa : Bool := if choice = "NEITHER" then true else h.neitherPenaltyApplied
    some { a := h.a, b := h.b, outcome := h.outcome, choice := choice,
           kMult := kMult, neitherPenaltyApplied := npa }

/-- Follows the spec's words for claim C3 (not the source): during replay
*every* entry gets the standard `updatePair` update, plus the flat `-10`
penalty on both items whenever `neitherPenaltyApplied` is set, then the
outcome counters. -/
def replayEntryClaimed (pow10 : ℚ → ℚ) (m : Ratings) (e : Entry) : Ratings :=
  match e.outcome with
  | none => m
  | some oc =>
    let aId := e.a.getD "undefined"
    let bId := e.b.getD "undefined"
    let rA := getRating m aId
    let rB := getRating m bId
    let u := updatePair pow10 rA rB oc (BASE_K * e.kMult)
    let uA := if e.neitherPenaltyApplied then { u.1 with mu := u.1.mu - 10 } else u.1
    let uB := if e.neitherPenaltyApplied then { u.2 with mu := u.2.mu - 10 } else u.2
    let cnt := applyOutcomeCounters uA uB oc
    setRating (setRating m aId cnt.1) bId cnt.2

/-- A concrete exponential (used to instantiate `pow10` in closed
statements); only the hypotheses a theorem states about `pow10` matter. -/
def p10one : ℚ → ℚ := fun _ => 1

/-! ## Pair selector (`src/web/shared/selector.js`) -/

/-- The item fields the selector reads (`{id, mu, sigma, n, wins, cat1}`);
absent `wins`/`n`/`cat1` are already coalesced to `0`/`""` here, mirroring
the `?? 0` / `?? ""` guards at every use site. -/
structure SItem where
  id : String
  mu : ℚ
  sigma : ℚ
  n : ℚ
  wins : ℚ
  cat1 : String
deriving DecidableEq, Repr

inductive Mode where
  | active | random | bubble | resolve_ties
deriving DecidableEq, Repr

inductive MuPriority where
  | highest | lowest | random
deriving DecidableEq, Repr

inductive NStrategy where
  | minimal | maximal | random
deriving DecidableEq, Repr

/-- The selection-state fields the selector reads. -/
structure SelState where
  mode : Mode
  muPriority : MuPriority
  resolveTieNMatches : NStrategy
  winsOnly : Bool
  topN : ℕ
  lastPair : List SItem
deriving DecidableEq, Repr

/-- One arbitrary natural number per `Math.random()` call site (call sites
inside loops are indexed by the loop counter), so that quantifying over the
oracle covers every possible run. -/
structure SelOracle where
  shufflePrio : ℕ → ℕ
  tieShuffle : ℕ → ℕ
  grpA : ℕ
  grpBubble : ℕ
  grpFinal : ℕ
  grpRand : ℕ
  tieN : ℕ → ℕ
  grpPick : ℕ → ℕ

/-- `shuffle` (Fisher–Yates over `Math.random()`), modelled as an
oracle-driven draw-without-replacement: both realize exactly the
permutations of the input, and every consumer depends only on the result
being some permutation. -/
def shuffleGo {α : Type _} (r : ℕ → ℕ) : ℕ → ℕ → List α → List α
  | 0, _, l => l
  | fuel+1, k, l =>
    match l with
    | [] => []
    | x :: xs =>
      let i := r k % (x :: xs).length
      (x :: xs).getD i x :: shuffleGo r fuel (k+1) ((x :: xs).eraseIdx i)

def shuffle {α : Type _} (r : ℕ → ℕ) (l : List α) : List α :=
  shuffleGo r l.length 0 l

def muAsc (x y : SItem) : Prop := x.mu ≤ y.mu

def muDesc (x y : SItem) : Prop := y.mu ≤ x.mu

def sigmaDesc (x y : SItem) : Prop := y.sigma ≤ x.sigma

instance : DecidableRel muAsc := fun x y => inferInstanceAs (Decidable (x.mu ≤ y.mu))

instance : DecidableRel muDesc := fun x y => inferInstanceAs (Decidable (y.mu ≤ x.mu))

instance : DecidableRel sigmaDesc := fun x y => inferInstanceAs (Decidable (y.sigma ≤ x.sigma))

/-- `applyWinsFilter(items, state)`. -/
def applyWinsFilter (items : List SItem) (st : SelState) : List SItem :=
  if st.winsOnly then items.filter (fun x => decide (1 ≤ x.wins)) else items

/-- `orderByMuPriority(items, state)`; JavaScript's stable `Array.sort` is
modelled by the stable `insertionSort`. -/
def orderByMuPriority (o : SelOracle) (items : List SItem) (st : SelState) : List SItem :=
  match st.muPriority with
  | .lowest => items.insertionSort muAsc
  | .random => shuffle o.shufflePrio items
  | .highest => items.insertionSort muDesc

def nKey (x : SItem) : ℚ := x.n

/-- The distinct `n`-values of a pool, numerically ascending (the sorted
key list of `selectGroupByN`'s `Map`). -/
def sortedNKeys (items : List SItem) : List ℚ :=
  ((items.map nKey).dedup).insertionSort (· ≤ ·)

/-- `nValues[0]` / last / `nValues[randInt(len)]` per strategy (shared shape
of `selectGroupByN` and the tie-resolution target pick). -/
def pickByStrategy (rnd : ℕ) (strat : NStrategy) (keys : List ℚ) : ℚ :=
  match strat with
  | .maximal => keys.getD (keys.length - 1) 0
  | .random => keys.getD (rnd % keys.length) 0
  | .minimal => keys.getD 0 0

/-- `selectGroupByN(items, state)`. -/
def selectGroupByN (rnd : ℕ) (st : SelState) (items : List SItem) : List SItem :=
  if items.length ≤ 1 then items
  else
    let t := pickByStrategy rnd st.resolveTieNMatches (sortedNKeys items)
    items.filter (fun x => decide (nKey x = t))

/-- `pickNotIn(arr, bannedSet)`. -/
def pickNotIn (arr : List SItem) (banned : List String) : Option SItem :=
  arr.find? (fun x => decide (x.id ∉ banned))

/-- The ubiquitous `pickNotIn(arr, lastIds) ?? arr[0]` fallback. -/
def pickOr (arr : List SItem) (banned : List String) : Option SItem :=
  match pickNotIn arr banned with
  | some x => some x
  | none => arr.head?

/-- `pickTwoFromPool(pool, lastIds, state)`. -/
def pickTwoFromPool (rnd : ℕ) (pool : List SItem) (banned : List String)
    (st : SelState) : Option (SItem × SItem) :=
  let candidates := selectGroupByN rnd st pool
  match pickOr candidates banned with
  | none => none
  | some fst =>
    match pickOr (candidates.filter (fun x => decide (x.id ≠ fst.id))) banned with
    | none => none
    | some snd => some (fst, snd)

/-- An opponent candidate `{x, closeness, info}`. -/
abbrev Cand := SItem × ℚ × ℚ

/-- The comparator `(u.closeness - v.closeness) || (v.info - u.info)`:
ascending closeness, ties broken by descending info. -/
def candLe (u v : Cand) : Prop :=
  u.2.1 < v.2.1 ∨ (u.2.1 = v.2.1 ∧ v.2.2 ≤ u.2.2)

instance : DecidableRel candLe :=
  fun u v => inferInstanceAs (Decidable (u.2.1 < v.2.1 ∨ (u.2.1 = v.2.1 ∧ v.2.2 ≤ u.2.2)))

/-- The top-40% (at least 2) focus pool; `length * 0.4` is modelled as the
exact rational `2/5` of the length. -/
def focusPoolOf (l : List SItem) : List SItem :=
  l.take (max 2 (Nat.ceil ((l.length : ℚ) * (2/5))))

/-- Candidate-A pool: the up-to-40 most uncertain focus items, n-bucketed. -/
def poolAOf (o : SelOracle) (st : SelState) (l : List SItem) : List SItem :=
  let byUnc := (focusPoolOf l).insertionSort sigmaDesc
  selectGroupByN o.grpA st (byUnc.take (min 40 byUnc.length))

/-- Opponent candidates: everything but `A`, scored by mu-closeness and
sigma, sorted by `candLe`. -/
def candOf (A : SItem) (l : List SItem) : List Cand :=
  ((l.filter (fun x => decide (x.id ≠ A.id))).map
    (fun x => (x, |x.mu - A.mu|, x.sigma))).insertionSort candLe

/-- Candidate-B pool: prefer different primary category, take the top 30. -/
def poolBOf (A : SItem) (l : List SItem) : List Cand :=
  let cands := candOf A l
  let diverse := cands.filter (fun c => decide (c.1.cat1 ≠ A.cat1))
  (if diverse.isEmpty then cands else diverse).take 30

/-- The bubble-mode boundary refinement; returns the chosen `B` if the
branch returns early, `none` if it falls through. -/
def bubblePick (o : SelOracle) (st : SelState) (banned : List String) (A : SItem)
    (l : List SItem) : Option SItem :=
  let topN := max 10 st.topN
  let boundarySource := if st.muPriority = MuPriority.lowest then l.reverse else l
  let boundaryIds := (boundarySource.take (topN + 20)).map SItem.id
  if A.id ∈ boundaryIds then
    let poolB2 := (poolBOf A l).filter (fun c => decide (c.1.id ∈ boundaryIds))
    if poolB2.isEmpty then none
    else pickOr (selectGroupByN o.grpBubble st (poolB2.map (fun c => c.1))) banned
  else none

/-- The active/bubble tail of `chooseNextPair` (everything after the mode
dispatch), over the already-prioritized list. -/
def activeSelect (o : SelOracle) (st : SelState) (banned : List String)
    (l : List SItem) : Option (SItem × SItem) :=
  match pickOr (poolAOf o st l) banned with
  | none => none
  | some A =>
    match (if st.mode = Mode.bubble then bubblePick o st banned A l else none) with
    | some B2 => some (A, B2)
    | none =>
      match pickOr (selectGroupByN o.grpFinal st ((poolBOf A l).map (fun c => c.1))) banned with
      | none => none
      | some B => some (A, B)

/-- The tie-group key `Number(item.mu).toFixed(6)`: mu rounded to six
decimal places. -/
def muKeyZ (x : SItem) : ℤ := round (x.mu * 1000000)

def insertKey (ks : List ℤ) (k : ℤ) : List ℤ :=
  if k ∈ ks then ks else ks ++ [k]

/-- The `Map` keys in insertion (first-occurrence) order. -/
def muKeysInOrder (l : List SItem) : List ℤ :=
  l.foldl (fun ks x => insertKey ks (muKeyZ x)) []

/-- `tiedGroups`: groups of exact (to 6 decimals) mu-equality with at least
two members, paired with `Number(muKey)`. -/
def tieGroupsOf (l : List SItem) : List (ℚ × List SItem) :=
  ((muKeysInOrder l).map
    (fun k => ((k : ℚ) / 1000000, l.filter (fun x => decide (muKeyZ x = k))))).filter
    (fun g => decide (2 ≤ g.2.length))

def groupMuAsc (g h : ℚ × List SItem) : Prop := g.1 ≤ h.1

def groupMuDesc (g h : ℚ × List SItem) : Prop := h.1 ≤ g.1

instance : DecidableRel groupMuAsc := fun g h => inferInstanceAs (Decidable (g.1 ≤ h.1))

instance : DecidableRel groupMuDesc := fun g h => inferInstanceAs (Decidable (h.1 ≤ g.1))

/-- Ordering of tie groups by mu-priority; the random-comparator
`sort(() => Math.random() - 0.5)` yields some permutation, modelled by the
oracle-driven shuffle. -/
def sortTieGroups (o : SelOracle) (st : SelState) (gs : List (ℚ × List SItem)) :
    List (ℚ × List SItem) :=
  match st.muPriority with
  | .lowest => gs.insertionSort groupMuAsc
  | .random => shuffle o.tieShuffle gs
  | .highest => gs.insertionSort groupMuDesc

/-- `availableN`: the n-values whose bucket in the pool has at least two
members, ascending. -/
def availableNOf (pool : List SItem) : List ℚ :=
  ((pool.map nKey).dedup.filter
    (fun v => decide (2 ≤ (pool.filter (fun x => decide (nKey x = v))).length))).insertionSort (· ≤ ·)

/-- The per-group n-bucketed pick of `chooseTieResolutionPair`; `none` when
the group yields no usable pair this way (falls through to the group's
`pickTwoFromPool` fallback). -/
def tieAttempt (rnd : ℕ) (st : SelState) (banned : List String)
    (pool : List SItem) : Option (SItem × SItem) :=
  let avail := availableNOf pool
  if avail.isEmpty then none
  else
    let targetN := pickByStrategy rnd st.resolveTieNMatches avail
    let selectedGroup := pool.filter (fun x => decide (nKey x = targetN))
    match pickOr selectedGroup banned with
    | none => none
    | some f =>
      match pickOr (selectedGroup.filter (fun x => decide (x.id ≠ f.id))) banned with
      | none => none
      | some s => some (f, s)

/-- The `for (const tieGroupEntry of tiedGroups)` loop, indexed by the loop
counter for the oracle. -/
def tieLoop (o : SelOracle) (st : SelState) (banned : List String) :
    ℕ → List (ℚ × List SItem) → Option (SItem × SItem)
  | _, [] => none
  | k, g :: rest =>
    let candidatePool := applyWinsFilter g.2 st
    match tieAttempt (o.tieN k) st banned candidatePool with
    | some p => some p
    | none =>
      match pickTwoFromPool (o.grpPick k) candidatePool banned st with
      | some p => some p
      | none => tieLoop o st banned (k+1) rest

/-- `chooseTieResolutionPair(items, state, lastIds)`. -/
def chooseTieResolutionPair (o : SelOracle) (st : SelState) (banned : List String)
    (l : List SItem) : Option (SItem × SItem) :=
  tieLoop o st banned 0 (sortTieGroups o st (tieGroupsOf l))

/-- `lastIds`: the ids of `state.lastPair`, JavaScript-falsy (empty) ids
filtered out. -/
def lastIdsOf (st : SelState) : List String :=
  (st.lastPair.map SItem.id).filter (fun s => decide (s ≠ ""))

/-- `chooseNextPair(items, state)`. -/
def chooseNextPair (o : SelOracle) (items : List SItem) (st : SelState) :
    Option (SItem × SItem) :=
  if items.length < 2 then none
  else
    let effectiveItems := applyWinsFilter items st
    if effectiveItems.length < 2 then none
    else
      let prioritized := orderByMuPriority o effectiveItems st
      let banned := lastIdsOf st
      match (if st.mode = Mode.resolve_ties
             then chooseTieResolutionPair o st banned prioritized else none) with
      | some p => some p
      | none =>
        if st.mode = Mode.random then pickTwoFromPool o.grpRand prioritized banned st
        else activeSelect o st banned prioritized

/-- A concrete oracle for closed statements. -/
def oracle0 : SelOracle :=
  { shufflePrio := fun _ => 0, tieShuffle := fun _ => 0, grpA := 0, grpBubble := 0,
    grpFinal := 0, grpRand := 0, tieN := fun _ => 0, grpPick := fun _ => 0 }

/-! ## Generic update sequences (for the sigma-floor invariant)

The two rating-mutating primitives, applied at their call sites through the
ratings map with arbitrary parameters. -/

inductive Op where
  | std (a b : String) (outcome baseK : ℚ)
  | joint (id : String) (direction kMult : ℚ)
deriving Repr

def applyOp (pow10 : ℚ → ℚ) (m : Ratings) : Op → Ratings
  | .std a b oc k =>
    let u := updatePair pow10 (getRating m a) (getRating m b) oc k
    setRating (setRating m a u.1) b u.2
  | .joint i d k => setRating m i (applyJointAdjustment (getRating m i) d k)

def applyOps (pow10 : ℚ → ℚ) (m : Ratings) (ops : List Op) : Ratings :=
  ops.foldl (applyOp pow10) m

/-! ## Concrete inputs used by counterexamples and witnesses -/

/-- Two eligible items with distinct ids but different comparison counts. -/
def cexItems : List SItem :=
  [{ id := "x", mu := 1500, sigma := 350, n := 0, wins := 0, cat1 := "" },
   { id := "y", mu := 1500, sigma := 350, n := 1, wins := 0, cat1 := "" }]

/-- Random mode, default priority/strategy, no filters. -/
def cexState : SelState :=
  { mode := .random, muPriority := .highest, resolveTieNMatches := .minimal,
    winsOnly := false, topN := 60, lastPair := [] }

/-- The same pool under active mode (for the selector witness). -/
def witState : SelState :=
  { mode := .active, muPriority := .highest, resolveTieNMatches := .minimal,
    winsOnly := false, topN := 60, lastPair := [] }

/-- A normalized legacy `NEITHER` entry (normalization forces the flag). -/
def eNeither : Entry :=
  { a := some "x", b := some "y", outcome := some (1/2), choice := "NEITHER",
    kMult := 6/5, neitherPenaltyApplied := true }

/-- A standard-path entry carrying the legacy penalty flag. -/
def eStdFlag : Entry :=
  { a := some "x", b := some "y", outcome := some 1, choice := "A",
    kMult := 1, neitherPenaltyApplied := true }

/-- What normalization produces from `rawNeither` below. -/
def enNeither : Entry :=
  { a := some "x", b := some "y", outcome := some (1/2), choice := "NEITHER",
    kMult := 6/5, neitherPenaltyApplied := true }

/-- A stored `NEITHER` entry whose flag is (wrongly) false. -/
def rawNeither : RawEntry :=
  { a := some "x", b := some "y", outcome := some (1/2), choice := some "NEITHER",
    kMult := some (6/5), neitherPenaltyApplied := false }

/-- Malformed: non-null outcome but missing `a`. -/
def rawDrop : RawEntry :=
  { a := none, b := some "y", outcome := some 1, choice := none,
    kMult := none, neitherPenaltyApplied := false }

def rawWin : RawEntry :=
  { a := some "x", b := some "y", outcome := some 1, choice := none,
    kMult := none, neitherPenaltyApplied := false }

def rawLoss : RawEntry :=
  { a := some "x", b := some "y", outcome := some 0, choice := none,
    kMult := none, neitherPenaltyApplied := false }

def rawBoth : RawEntry :=
  { a := some "x", b := some "y", outcome := some (1/2), choice := none,
    kMult := none, neitherPenaltyApplied := false }

def rawSkip : RawEntry :=
  { a := none, b := none, outcome := none, choice := none,
    kMult := none, neitherPenaltyApplied := false }

def opsWit : List Op := [Op.std "x" "y" 1 32, Op.joint "x" 1 1]

def votesWit : List Vote := [⟨Choice.A, "x", "y"⟩, ⟨Choice.NEITHER, "y", "z"⟩]

def voteWit : Vote := ⟨Choice.BOTH, "x", "z"⟩

/-! # Theorems -/

theorem getRating_setRating_self (m : Ratings) (i : String) (r : Rating) :
    getRating (setRating m i r) i = r := by
  induction m with
  | nil => simp [setRating, getRating]
  | cons p ms ih =>
    by_cases hp : p.1 = i
    · simp [setRating, getRating, hp]
    · simp [setRating, getRating, hp, ih]

theorem getRating_setRating_ne {m : Ratings} {i j : String} {r : Rating} (h : i ≠ j) :
    getRating (setRating m i r) j = getRating m j := by
  induction m with
  | nil => simp [setRating, getRating, h]
  | cons p ms ih =>
    by_cases hp : p.1 = i
    · simp [setRating, getRating, hp, h, ih]
    · by_cases hq : p.1 = j <;> simp [setRating, getRating, hp, hq, ih, Ne.symm h]

/-- Replaying a freshly-recorded vote entry has exactly the rating effect of
the vote itself (the replay-only `-10` penalty is disabled because `vote`
records `neitherPenaltyApplied: false`). -/
theorem replayEntry_entryOfVote (p10 : ℚ → ℚ) (m : Ratings) (v : Vote) :
    replayEntry p10 m (entryOfVote v.c v.a v.b) = voteApply p10 m v := by
  obtain ⟨c, a, b⟩ := v
  cases c <;> rfl

theorem replay_foldl_eq (p10 : ℚ → ℚ) (vs : List Vote) :
    ∀ m : Ratings, (historyOf vs).foldl (replayEntry p10) m = vs.foldl (voteApply p10) m := by
  induction vs with
  | nil => intro m; rfl
  | cons v vs ih =>
    intro m
    simp only [historyOf, List.map_cons, List.foldl_cons]
    rw [replayEntry_entryOfVote]
    exact ih _

/-- C1.  Undo round-trip: for any prior vote history and any vote appended
to it, the rating state `undo` reconstructs (drop the last entry, replay the
rest from defaults) is exactly the incrementally-built state that existed
before the last vote; equivalently, full replay of a vote history from
default ratings equals its incremental application. -/
theorem undo_roundtrip (p10 : ℚ → ℚ) (vs : List Vote) (v : Vote)
    (hd : ∀ w ∈ vs ++ [v], w.a ≠ w.b) :
    undoRatings p10 (historyOf (vs ++ [v])) = applyVotes p10 [] vs ∧
    replayAll p10 (historyOf vs) = applyVotes p10 [] vs := by
  have hrep : replayAll p10 (historyOf vs) = applyVotes p10 [] vs :=
    replay_foldl_eq p10 vs []
  refine ⟨?_, hrep⟩
  have hdrop : (historyOf (vs ++ [v])).dropLast = historyOf vs := by
    simp [historyOf, List.map_append, List.dropLast_concat]
  rw [undoRatings, hdrop]
  exact hrep

theorem undo_roundtrip_witness :
    (∀ w ∈ votesWit ++ [voteWit], w.a ≠ w.b) ∧
    (undoRatings p10one (historyOf (votesWit ++ [voteWit])) = applyVotes p10one [] votesWit ∧
     replayAll p10one (historyOf votesWit) = applyVotes p10one [] votesWit) :=
  ⟨by decide, undo_roundtrip p10one votesWit voteWit (by decide)⟩

/-- C3 counterexample.  A normalized legacy `NEITHER` entry carries
`neitherPenaltyApplied = true`, yet replaying it does not apply the standard
update plus the flat `-10` penalty: it takes the joint-adjustment branch
(replay mu `1482.72` versus the claimed `1490` on default items). -/
theorem neither_penalty_cex :
    eNeither.neitherPenaltyApplied = true ∧
    replayEntry p10one [] eNeither ≠ replayEntryClaimed p10one [] eNeither := by
  refine ⟨rfl, fun hEq => ?_⟩
  have h1 : (getRating (replayEntry p10one [] eNeither) "x").mu = 37068/25 := by
    norm_num [replayEntry, eNeither, getRating, setRating, applyJointAdjustment,
      applyOutcomeCounters, p10one, clamp, defaultRating, DEFAULT_MU, DEFAULT_SIGMA,
      MIN_SIGMA, SIGMA_DECAY, BASE_K, JOINT_FEEDBACK_SCALE,
      show ¬(("NEITHER" : String) = "BOTH") by decide]
  have h2 : (getRating (replayEntryClaimed p10one [] eNeither) "x").mu = 1490 := by
    norm_num [replayEntryClaimed, eNeither, getRating, setRating, updatePair, logistic,
      applyOutcomeCounters, p10one, clamp, defaultRating, DEFAULT_MU, DEFAULT_SIGMA,
      MIN_SIGMA, SIGMA_DECAY, BASE_K]
  rw [hEq, h2] at h1
  norm_num at h1

/-- C3 (amended).  During undo's replay, the flat `-10` neither penalty is
applied (on top of the standard `updatePair` update) exactly to flagged
entries that take the standard-update path, i.e. whose choice is neither
`BOTH` nor `NEITHER`; `BOTH`/`NEITHER` entries replay through the joint
adjustment with no penalty.  Normalization marks every entry whose stored
choice is `NEITHER` with `neitherPenaltyApplied = true` regardless of the
stored flag. -/
theorem neither_penalty_replay (p10 : ℚ → ℚ) :
    (∀ (m : Ratings) (e : Entry), e.choice ≠ "BOTH" → e.choice ≠ "NEITHER" →
      replayEntry p10 m e = replayEntryClaimed p10 m e) ∧
    (∀ (h : RawEntry) (en : Entry), normalizeHistoryEntry h = some en →
      h.choice = some "NEITHER" → en.neitherPenaltyApplied = true) := by
  constructor
  · intro m e h1 h2
    cases ho : e.outcome <;>
      simp [replayEntry, replayEntryClaimed, ho, h1, h2]
  · intro h en hn hc
    simp only [normalizeHistoryEntry, hc] at hn
    split at hn
    · cases hn
    · injection hn with h'
      subst h'
      simp

theorem neither_penalty_replay_witness :
    replayEntry p10one [] eStdFlag = replayEntryClaimed p10one [] eStdFlag ∧
    enNeither.neitherPenaltyApplied = true :=
  ⟨(neither_penalty_replay p10one).1 [] eStdFlag (by decide) (by decide),
   (neither_penalty_replay p10one).2 rawNeither enNeither rfl rfl⟩

/-- C9.  Normalization of stored history entries: entries with a non-null
outcome but a JavaScript-falsy id are dropped; entries missing both
`choice` and `kMult` are backfilled from the outcome by the fixed table
(1.0 → `A`/1.0, 0.0 → `B`/1.0, 0.5 → `BOTH`/0.75, null → `SKIP`/0.0); and
every surviving entry with a non-null outcome has both ids present. -/
theorem history_normalization :
    (∀ h : RawEntry, h.outcome.isSome = true →
      (strFalsy h.a = true ∨ strFalsy h.b = true) → normalizeHistoryEntry h = none) ∧
    (∀ h : RawEntry, h.choice = none → h.kMult = none →
      strFalsy h.a = false → strFalsy h.b = false →
      ((h.outcome = some 1 → normalizeHistoryEntry h =
          some { a := h.a, b := h.b, outcome := h.outcome, choice := "A", kMult := 1,
                 neitherPenaltyApplied := h.neitherPenaltyApplied }) ∧
       (h.outcome = some 0 → normalizeHistoryEntry h =
          some { a := h.a, b := h.b, outcome := h.outcome, choice := "B", kMult := 1,
                 neitherPenaltyApplied := h.neitherPenaltyApplied }) ∧
       (h.outcome = some (1/2) → normalizeHistoryEntry h =
          some { a := h.a, b := h.b, outcome := h.outcome, choice := "BOTH", kMult := 3/4,
                 neitherPenaltyApplied := h.neitherPenaltyApplied }))) ∧
    (∀ h : RawEntry, h.choice = none → h.kMult = none → h.outcome = none →
      normalizeHistoryEntry h =
        some { a := h.a, b := h.b, outcome := none, choice := "SKIP", kMult := 0,
               neitherPenaltyApplied := h.neitherPenaltyApplied }) ∧
    (∀ (h : RawEntry) (en : Entry), normalizeHistoryEntry h = some en →
      en.outcome.isSome = true → strFalsy en.a = false ∧ strFalsy en.b = false) := by
  refine ⟨?_, ?_, ?_, ?_⟩
  · intro h h1 h2
    simp only [normalizeHistoryEntry]
    rw [if_pos ⟨h1, h2⟩]
  · intro h hc hk ha hb
    refine ⟨fun ho => ?_, fun ho => ?_, fun ho => ?_⟩ <;>
      · norm_num [normalizeHistoryEntry, hc, hk, ho, ha, hb]
        exact fun hx => absurd hx (by decide)
  · intro h hc hk ho
    norm_num [normalizeHistoryEntry, hc, hk, ho,
      show ¬((none : Option ℚ) = some 1) by decide,
      show ¬((none : Option ℚ) = some 0) by decide,
      show ¬((none : Option ℚ) = some (1/2)) by decide]
    exact fun hx => absurd hx (by decide)
  · intro h en hn hs
    simp only [normalizeHistoryEntry] at hn
    split at hn
    · cases hn
    · rename_i hcond
      injection hn with h'
      subst h'
      have hs' : h.outcome.isSome = true := hs
      constructor
      · cases hfa : strFalsy h.a with
        | false => rfl
        | true => exact absurd ⟨hs', Or.inl hfa⟩ hcond
      · cases hfb : strFalsy h.b with
        | false => rfl
        | true => exact absurd ⟨hs', Or.inr hfb⟩ hcond

theorem history_normalization_witness :
    normalizeHistoryEntry rawDrop = none ∧
    normalizeHistoryEntry rawWin =
      some { a := some "x", b := some "y", outcome := some 1, choice := "A", kMult := 1,
             neitherPenaltyApplied := false } ∧
    normalizeHistoryEntry rawLoss =
      some { a := some "x", b := some "y", outcome := some 0, choice := "B", kMult := 1,
             neitherPenaltyApplied := false } ∧
    normalizeHistoryEntry rawBoth =
      some { a := some "x", b := some "y", outcome := some (1/2), choice := "BOTH",
             kMult := 3/4, neitherPenaltyApplied := false } ∧
    normalizeHistoryEntry rawSkip =
      some { a := none, b := none, outcome := none, choice := "SKIP", kMult := 0,
             neitherPenaltyApplied := false } ∧
    (strFalsy enNeither.a = false ∧ strFalsy enNeither.b = false) :=
  ⟨history_normalization.1 rawDrop rfl (Or.inl rfl),
   (history_normalization.2.1 rawWin rfl rfl rfl rfl).1 rfl,
   (history_normalization.2.1 rawLoss rfl rfl rfl rfl).2.1 rfl,
   (history_normalization.2.1 rawBoth rfl rfl rfl rfl).2.2 rfl,
   history_normalization.2.2.1 rawSkip rfl rfl rfl,
   history_normalization.2.2.2 rawNeither enNeither rfl rfl⟩

/-- C8.  A SKIP vote appends exactly one history entry (outcome `null`,
choice `SKIP`, `kMult` 0) and leaves the ratings map untouched. -/
theorem skip_frame (p10 : ℚ → ℚ) (st : AppState) (a b : String) :
    vote p10 st Choice.SKIP a b =
      { ratings := st.ratings,
        history := st.history ++
          [{ a := some a, b := some b, outcome := none, choice := "SKIP",
             kMult := 0, neitherPenaltyApplied := false }] } :=
  rfl

theorem clamp_one : clamp (1:ℚ) (3/5) (9/5) = 1 := by
  rw [clamp, min_eq_right (by norm_num), max_eq_right (by norm_num)]

theorem clamp_lo_le (x lo hi : ℚ) : lo ≤ clamp x lo hi := le_max_left _ _

/-- C4.  The standard pairwise update on two default items with outcome 1.0
and `baseK = 32`: expectations are 1/2, both effective K are 32, the winner
moves to 1516 and the loser to 1484, both sigmas decay to 325.5, both `n`
become 1, and the counters record one win / one loss. -/
theorem std_update_example (p10 : ℚ → ℚ) (hp : p10 0 = 1) :
    (stdApply p10 defaultRating defaultRating 1 32).1.mu = 1516 ∧
    (stdApply p10 defaultRating defaultRating 1 32).2.mu = 1484 ∧
    (stdApply p10 defaultRating defaultRating 1 32).1.sigma = 651/2 ∧
    (stdApply p10 defaultRating defaultRating 1 32).2.sigma = 651/2 ∧
    (stdApply p10 defaultRating defaultRating 1 32).1.n = 1 ∧
    (stdApply p10 defaultRating defaultRating 1 32).2.n = 1 ∧
    (stdApply p10 defaultRating defaultRating 1 32).1.wins = 1 ∧
    (stdApply p10 defaultRating defaultRating 1 32).2.losses = 1 := by
  norm_num [stdApply, updatePair, applyOutcomeCounters, logistic, hp, clamp_one,
    defaultRating, DEFAULT_MU, DEFAULT_SIGMA, MIN_SIGMA, SIGMA_DECAY,
    show ((350:ℚ)/350) = 1 by norm_num,
    show ¬((1:ℚ) = 1/2) by norm_num,
    max_eq_right (show (60:ℚ) ≤ 350 * (93/100) by norm_num),
    max_eq_right (show (60:ℚ) ≤ 350 * (93/100) * 1 by norm_num)]

theorem std_update_example_witness :
    p10one 0 = 1 ∧ (stdApply p10one defaultRating defaultRating 1 32).1.mu = 1516 :=
  ⟨rfl, (std_update_example p10one rfl).1⟩

theorem sigma_floor_step (p10 : ℚ → ℚ) (m : Ratings) (op : Op) (id : String)
    (h : MIN_SIGMA ≤ (getRating m id).sigma) :
    MIN_SIGMA ≤ (getRating (applyOp p10 m op) id).sigma := by
  cases op with
  | std a b oc k =>
    simp only [applyOp]
    by_cases hb : b = id
    · subst hb
      rw [getRating_setRating_self]
      simp only [updatePair]
      exact le_max_left _ _
    · rw [getRating_setRating_ne hb]
      by_cases ha : a = id
      · subst ha
        rw [getRating_setRating_self]
        simp only [updatePair]
        exact le_max_left _ _
      · rw [getRating_setRating_ne ha]
        exact h
  | joint i d k =>
    simp only [applyOp]
    by_cases hi : i = id
    · subst hi
      rw [getRating_setRating_self]
      simp only [applyJointAdjustment]
      exact le_max_left _ _
    · rw [getRating_setRating_ne hi]
      exact h

/-- C5.  Sigma floor: an item whose sigma is at least `MIN_SIGMA` keeps a
sigma of at least `MIN_SIGMA` after any sequence of standard pairwise
updates and joint adjustments, for arbitrary outcomes, `baseK` and
`kMult`. -/
theorem sigma_floor (p10 : ℚ → ℚ) (ops : List Op) (m : Ratings) (id : String)
    (h : MIN_SIGMA ≤ (getRating m id).sigma) :
    MIN_SIGMA ≤ (getRating (applyOps p10 m ops) id).sigma := by
  induction ops generalizing m with
  | nil => exact h
  | cons op ops ih => exact ih _ (sigma_floor_step p10 m op id h)

theorem sigma_floor_witness :
    MIN_SIGMA ≤ (getRating ([] : Ratings) "x").sigma ∧
    MIN_SIGMA ≤ (getRating (applyOps p10one [] opsWit) "x").sigma :=
  ⟨by decide, sigma_floor p10one opsWit [] "x" (by decide)⟩

/-- C6.  Joint adjustment postcondition: the mu shift is
`direction * (BASE_K * kMult * clamp(sigma/DEFAULT_SIGMA, 0.6, 1.8)) * 0.45`,
sigma decays by `SIGMA_DECAY * 0.99` floored at `MIN_SIGMA`, `n` increments,
and the counters are untouched; a `BOTH` vote (kMult 0.8) on two default
items moves each mu independently to 1511.52 (= 37788/25) and each sigma to
`350 * 0.93 * 0.99` (= 64449/200). -/
theorem joint_adjustment_postcondition :
    (∀ (r : Rating) (direction kMult : ℚ),
      applyJointAdjustment r direction kMult =
        { mu := r.mu + direction *
            (BASE_K * kMult * clamp (r.sigma / DEFAULT_SIGMA) (3/5) (9/5)) *
            JOINT_FEEDBACK_SCALE,
          sigma := max MIN_SIGMA (r.sigma * SIGMA_DECAY * (99/100)),
          n := r.n + 1, wins := r.wins, losses := r.losses, ties := r.ties }) ∧
    (getRating (vote p10one ⟨[], []⟩ Choice.BOTH "x" "y").ratings "x").mu = 37788/25 ∧
    (getRating (vote p10one ⟨[], []⟩ Choice.BOTH "x" "y").ratings "y").mu = 37788/25 ∧
    (getRating (vote p10one ⟨[], []⟩ Choice.BOTH "x" "y").ratings "x").sigma = 64449/200 ∧
    (getRating (vote p10one ⟨[], []⟩ Choice.BOTH "x" "y").ratings "y").sigma = 64449/200 ∧
    (getRating (vote p10one ⟨[], []⟩ Choice.BOTH "x" "y").ratings "x").n = 1 ∧
    (getRating (vote p10one ⟨[], []⟩ Choice.BOTH "x" "y").ratings "y").n = 1 := by
  refine ⟨fun r direction kMult => rfl, ?_⟩
  norm_num [vote, voteApply, choiceOutcome, choiceKMult, applyOutcomeCounters,
    applyJointAdjustment, getRating, setRating, clamp_one,
    defaultRating, DEFAULT_MU, DEFAULT_SIGMA, MIN_SIGMA, SIGMA_DECAY,
    BASE_K, JOINT_FEEDBACK_SCALE,
    show ((350:ℚ)/350) = 1 by norm_num,
    show ¬((1:ℚ)/2 = 1) by norm_num,
    show ¬((1:ℚ)/2 = 0) by norm_num,
    max_eq_right (show (60:ℚ) ≤ 350 * (93/100) * (99/100) by norm_num)]

/-- C7 counterexample.  With `baseK = 0` the two effective learning rates
are equal (`K_A = K_B = 0`) and the outcome is 1.0, yet `mu_A` does not
strictly increase: the claim's strict-monotonicity clause fails. -/
theorem zero_sum_elo_cex :
    ((0:ℚ) * clamp (defaultRating.sigma / DEFAULT_SIGMA) (3/5) (9/5)
      = 0 * clamp (defaultRating.sigma / DEFAULT_SIGMA) (3/5) (9/5)) ∧
    ¬ (defaultRating.mu < (updatePair p10one defaultRating defaultRating 1 0).1.mu) := by
  refine ⟨rfl, ?_⟩
  norm_num [updatePair, logistic, p10one, defaultRating, DEFAULT_MU, DEFAULT_SIGMA]

/-- C7 (amended).  For a standard update with outcome 1.0: whenever
`K_A = K_B`, the mu changes are exactly opposite (`p_A + p_B = 1` holds by
construction); and when additionally `baseK > 0` and the exponential is
positive at the relevant point (true of the real `10^x`), `mu_A` strictly
increases and `mu_B` strictly decreases. -/
theorem zero_sum_elo (p10 : ℚ → ℚ) (A B : Rating) (baseK : ℚ)
    (hK : baseK * clamp (A.sigma / DEFAULT_SIGMA) (3/5) (9/5)
        = baseK * clamp (B.sigma / DEFAULT_SIGMA) (3/5) (9/5)) :
    (updatePair p10 A B 1 baseK).1.mu - A.mu
        = -((updatePair p10 A B 1 baseK).2.mu - B.mu) ∧
    (0 < baseK → 0 < p10 (-(A.mu - B.mu) / 400) →
      A.mu < (updatePair p10 A B 1 baseK).1.mu ∧
      (updatePair p10 A B 1 baseK).2.mu < B.mu) := by
  simp only [updatePair, logistic]
  constructor
  · linear_combination (1 - 1 / (1 + p10 (-(A.mu - B.mu) / 400))) * hK
  · intro hb hpos
    have h1t : (0:ℚ) < 1 + p10 (-(A.mu - B.mu) / 400) := by linarith
    have hplt : 1 / (1 + p10 (-(A.mu - B.mu) / 400)) < 1 := by
      rw [div_lt_one h1t]; linarith
    have hcA0 : (0:ℚ) < clamp (A.sigma / DEFAULT_SIGMA) (3/5) (9/5) :=
      lt_of_lt_of_le (by norm_num) (clamp_lo_le _ _ _)
    have hcB0 : (0:ℚ) < clamp (B.sigma / DEFAULT_SIGMA) (3/5) (9/5) :=
      lt_of_lt_of_le (by norm_num) (clamp_lo_le _ _ _)
    have hKA : (0:ℚ) < baseK * clamp (A.sigma / DEFAULT_SIGMA) (3/5) (9/5) :=
      mul_pos hb hcA0
    have hKB : (0:ℚ) < baseK * clamp (B.sigma / DEFAULT_SIGMA) (3/5) (9/5) :=
      mul_pos hb hcB0
    constructor
    · nlinarith [hKA, hplt]
    · nlinarith [hKB, hplt]

theorem zero_sum_elo_witness :
    (32 * clamp (defaultRating.sigma / DEFAULT_SIGMA) (3/5) (9/5)
      = 32 * clamp (defaultRating.sigma / DEFAULT_SIGMA) (3/5) (9/5)) ∧
    (0:ℚ) < 32 ∧ 0 < p10one (-(defaultRating.mu - defaultRating.mu) / 400) ∧
    ((updatePair p10one defaultRating defaultRating 1 32).1.mu - defaultRating.mu
      = -((updatePair p10one defaultRating defaultRating 1 32).2.mu - defaultRating.mu)) ∧
    defaultRating.mu < (updatePair p10one defaultRating defaultRating 1 32).1.mu := by
  have h := zero_sum_elo p10one defaultRating defaultRating 32 rfl
  exact ⟨rfl, by decide, by decide, h.1, (h.2 (by decide) (by decide)).1⟩

/-- C10.  A NEITHER vote records outcome 0.5 (the same stored outcome value
as BOTH) with `kMult = 1.2`, appends exactly one entry, increments both ties
counters, leaves both wins/losses counters unchanged, and strictly lowers
both mus. -/
theorem neither_vote_effect (p10 : ℚ → ℚ) (st : AppState) (a b : String)
    (hab : a ≠ b) :
    (entryOfVote Choice.NEITHER a b).outcome = some (1/2) ∧
    (entryOfVote Choice.NEITHER a b).outcome = (entryOfVote Choice.BOTH a b).outcome ∧
    (entryOfVote Choice.NEITHER a b).kMult = 6/5 ∧
    (vote p10 st Choice.NEITHER a b).history
      = st.history ++ [entryOfVote Choice.NEITHER a b] ∧
    (getRating (vote p10 st Choice.NEITHER a b).ratings a).ties
      = (getRating st.ratings a).ties + 1 ∧
    (getRating (vote p10 st Choice.NEITHER a b).ratings b).ties
      = (getRating st.ratings b).ties + 1 ∧
    (getRating (vote p10 st Choice.NEITHER a b).ratings a).wins
      = (getRating st.ratings a).wins ∧
    (getRating (vote p10 st Choice.NEITHER a b).ratings a).losses
      = (getRating st.ratings a).losses ∧
    (getRating (vote p10 st Choice.NEITHER a b).ratings b).wins
      = (getRating st.ratings b).wins ∧
    (getRating (vote p10 st Choice.NEITHER a b).ratings b).losses
      = (getRating st.ratings b).losses ∧
    (getRating (vote p10 st Choice.NEITHER a b).ratings a).mu
      < (getRating st.ratings a).mu ∧
    (getRating (vote p10 st Choice.NEITHER a b).ratings b).mu
      < (getRating st.ratings b).mu := by
  have hba : b ≠ a := Ne.symm hab
  have hkey : (vote p10 st Choice.NEITHER a b).ratings =
      setRating (setRating st.ratings a
        { applyJointAdjustment (getRating st.ratings a) (-1) (6/5) with
          ties := (applyJointAdjustment (getRating st.ratings a) (-1) (6/5)).ties + 1 })
        b { applyJointAdjustment (getRating st.ratings b) (-1) (6/5) with
          ties := (applyJointAdjustment (getRating st.ratings b) (-1) (6/5)).ties + 1 } := by
    simp [vote, voteApply, choiceOutcome, choiceKMult, applyOutcomeCounters,
      show ¬((1:ℚ)/2 = 1) by norm_num, show ¬((1:ℚ)/2 = 0) by norm_num]
  have hga : getRating (vote p10 st Choice.NEITHER a b).ratings a =
      { applyJointAdjustment (getRating st.ratings a) (-1) (6/5) with
        ties := (applyJointAdjustment (getRating st.ratings a) (-1) (6/5)).ties + 1 } := by
    rw [hkey, getRating_setRating_ne hba, getRating_setRating_self]
  have hgb : getRating (vote p10 st Choice.NEITHER a b).ratings b =
      { applyJointAdjustment (getRating st.ratings b) (-1) (6/5) with
        ties := (applyJointAdjustment (getRating st.ratings b) (-1) (6/5)).ties + 1 } := by
    rw [hkey, getRating_setRating_self]
  have hmu : ∀ r : Rating, (applyJointAdjustment r (-1) (6/5)).mu < r.mu := by
    intro r
    have hc : (3/5 : ℚ) ≤ clamp (r.sigma / DEFAULT_SIGMA) (3/5) (9/5) :=
      clamp_lo_le _ _ _
    simp only [applyJointAdjustment, BASE_K, JOINT_FEEDBACK_SCALE]
    nlinarith [hc]
  refine ⟨rfl, rfl, rfl, rfl, ?_, ?_, ?_, ?_, ?_, ?_, ?_, ?_⟩
  · rw [hga]; rfl
  · rw [hgb]; rfl
  · rw [hga]; rfl
  · rw [hga]; rfl
  · rw [hgb]; rfl
  · rw [hgb]; rfl
  · rw [hga]; exact hmu _
  · rw [hgb]; exact hmu _

theorem neither_vote_effect_witness :
    ("x" ≠ "y") ∧
    (getRating (vote p10one ⟨[], []⟩ Choice.NEITHER "x" "y").ratings "x").ties
      = (getRating ([] : Ratings) "x").ties + 1 ∧
    (getRating (vote p10one ⟨[], []⟩ Choice.NEITHER "x" "y").ratings "x").mu
      < (getRating ([] : Ratings) "x").mu := by
  have h := neither_vote_effect p10one ⟨[], []⟩ "x" "y" (by decide)
  exact ⟨by decide, h.2.2.2.2.1, h.2.2.2.2.2.2.2.2.2.2.1⟩

/-! ## Selector lemmas -/

theorem getD_cons_eraseIdx_perm {α : Type _} (d : α) :
    ∀ (l : List α) (i : ℕ), i < l.length → ((l.getD i d) :: l.eraseIdx i).Perm l := by
  intro l
  induction l with
  | nil => intro i h; simp at h
  | cons x xs ih =>
    intro i h
    cases i with
    | zero => simp
    | succ i =>
      have hi : i < xs.length := by simpa using h
      have hperm := ih i hi
      simp only [List.getD_cons_succ, List.eraseIdx_cons_succ]
      exact (List.Perm.swap x (xs.getD i d) _).trans (hperm.cons x)

theorem shuffleGo_perm {α : Type _} (r : ℕ → ℕ) :
    ∀ (fuel k : ℕ) (l : List α), (shuffleGo r fuel k l).Perm l := by
  intro fuel
  induction fuel with
  | zero => intro k l; exact List.Perm.refl l
  | succ fuel ih =>
    intro k l
    cases l with
    | nil => exact List.Perm.refl []
    | cons x xs =>
      have hi : r k % (x :: xs).length < (x :: xs).length :=
        Nat.mod_lt _ (by simp)
      exact (((ih (k+1) _).cons _).trans (getD_cons_eraseIdx_perm x (x :: xs) _ hi))

theorem shuffle_perm {α : Type _} (r : ℕ → ℕ) (l : List α) : (shuffle r l).Perm l :=
  shuffleGo_perm r l.length 0 l

theorem applyWinsFilter_sublist (items : List SItem) (st : SelState) :
    (applyWinsFilter items st).Sublist items := by
  unfold applyWinsFilter
  split
  · exact List.filter_sublist items
  · exact List.Sublist.refl items

theorem orderByMuPriority_perm (o : SelOracle) (items : List SItem) (st : SelState) :
    (orderByMuPriority o items st).Perm items := by
  unfold orderByMuPriority
  cases st.muPriority with
  | highest => exact List.perm_insertionSort muDesc items
  | lowest => exact List.perm_insertionSort muAsc items
  | random => exact shuffle_perm o.shufflePrio items

theorem mem_sortedNKeys {items : List SItem} {y : ℚ} (h : y ∈ sortedNKeys items) :
    y ∈ items.map nKey :=
  List.mem_dedup.mp ((List.perm_insertionSort _ _).mem_iff.mp h)

theorem sortedNKeys_ne_nil {items : List SItem} (h : items ≠ []) :
    sortedNKeys items ≠ [] := by
  cases items with
  | nil => exact absurd rfl h
  | cons a as =>
    have hmem : nKey a ∈ sortedNKeys (a :: as) := by
      rw [sortedNKeys]
      exact (List.perm_insertionSort _ _).mem_iff.mpr (List.mem_dedup.mpr (by simp))
    exact List.ne_nil_of_mem hmem

theorem mem_pickByStrategy (rnd : ℕ) (strat : NStrategy) {keys : List ℚ}
    (h : keys ≠ []) : pickByStrategy rnd strat keys ∈ keys := by
  have hlen : 0 < keys.length := List.length_pos.mpr h
  cases strat with
  | minimal =>
    rw [pickByStrategy, List.getD_eq_getElem _ _ hlen]
    exact List.getElem_mem hlen
  | maximal =>
    have hl : keys.length - 1 < keys.length := by omega
    rw [pickByStrategy, List.getD_eq_getElem _ _ hl]
    exact List.getElem_mem hl
  | random =>
    have hl : rnd % keys.length < keys.length := Nat.mod_lt _ hlen
    rw [pickByStrategy, List.getD_eq_getElem _ _ hl]
    exact List.getElem_mem hl

theorem selectGroupByN_subset {rnd : ℕ} {st : SelState} {items : List SItem} {x : SItem}
    (h : x ∈ selectGroupByN rnd st items) : x ∈ items := by
  unfold selectGroupByN at h
  split at h
  · exact h
  · exact List.mem_of_mem_filter h

theorem selectGroupByN_ne_nil (rnd : ℕ) (st : SelState) {items : List SItem}
    (h : items ≠ []) : selectGroupByN rnd st items ≠ [] := by
  unfold selectGroupByN
  split
  · exact h
  · have ht := mem_pickByStrategy rnd st.resolveTieNMatches (sortedNKeys_ne_nil h)
    obtain ⟨x, hx, hxk⟩ := List.mem_map.mp (mem_sortedNKeys ht)
    exact List.ne_nil_of_mem
      (List.mem_filter.mpr ⟨hx, by simp [hxk]⟩)

theorem pickOr_eq_some_mem {arr : List SItem} {banned : List String} {x : SItem}
    (h : pickOr arr banned = some x) : x ∈ arr := by
  rw [pickOr] at h
  split at h
  · rename_i y hf
    cases h
    exact List.mem_of_find?_eq_some hf
  · cases arr with
    | nil => cases h
    | cons a as =>
      cases h
      exact List.mem_cons_self _ _

theorem pickOr_isSome {arr : List SItem} (banned : List String) (h : arr ≠ []) :
    ∃ x, pickOr arr banned = some x ∧ x ∈ arr := by
  cases hf : pickNotIn arr banned with
  | some y =>
    exact ⟨y, by simp only [pickOr, hf], List.mem_of_find?_eq_some hf⟩
  | none =>
    cases arr with
    | nil => exact absurd rfl h
    | cons a as =>
      exact ⟨a, by simp only [pickOr, hf, List.head?_cons], List.mem_cons_self a as⟩

theorem pickTwoFromPool_valid {rnd : ℕ} {pool : List SItem} {banned : List String}
    {st : SelState} {p : SItem × SItem}
    (h : pickTwoFromPool rnd pool banned st = some p) :
    p.1 ∈ pool ∧ p.2 ∈ pool ∧ p.2.id ≠ p.1.id := by
  simp only [pickTwoFromPool] at h
  split at h
  · cases h
  · rename_i fst hf
    split at h
    · cases h
    · rename_i snd hs
      cases h
      refine ⟨selectGroupByN_subset (pickOr_eq_some_mem hf), ?_, ?_⟩
      · exact selectGroupByN_subset (List.mem_of_mem_filter (pickOr_eq_some_mem hs))
      · have := (List.mem_filter.mp (pickOr_eq_some_mem hs)).2
        simpa using this

theorem exists_ne_id {l : List SItem} (hnd : (l.map SItem.id).Nodup)
    (hlen : 2 ≤ l.length) {a : SItem} (_ : a ∈ l) : ∃ b ∈ l, b.id ≠ a.id := by
  cases l with
  | nil => simp at hlen
  | cons x xs =>
    cases xs with
    | nil => simp at hlen
    | cons y rest =>
      have hnd' : (¬x.id = y.id ∧ ∀ z ∈ rest, ¬z.id = x.id) ∧
          (∀ z ∈ rest, ¬z.id = y.id) ∧ (List.map SItem.id rest).Nodup := by
        simpa using hnd
      have hxy : x.id ≠ y.id := hnd'.1.1
      by_cases hx : x.id = a.id
      · refine ⟨y, List.mem_cons_of_mem _ (List.mem_cons_self _ _), ?_⟩
        rw [← hx]
        exact fun h => hxy h.symm
      · exact ⟨x, List.mem_cons_self _ _, hx⟩

theorem take_ne_nil {α : Type _} {n : ℕ} {xs : List α} (hn : n ≠ 0) (hx : xs ≠ []) :
    xs.take n ≠ [] := by
  intro he
  rcases List.take_eq_nil_iff.mp he with h | h
  · exact hn h
  · exact hx h

theorem mem_focusPoolOf {l : List SItem} {x : SItem} (h : x ∈ focusPoolOf l) : x ∈ l :=
  List.mem_of_mem_take h

theorem focusPoolOf_ne_nil {l : List SItem} (h2 : 2 ≤ l.length) : focusPoolOf l ≠ [] := by
  apply take_ne_nil
  · have : (2:ℕ) ≤ max 2 (Nat.ceil ((l.length : ℚ) * (2/5))) := le_max_left _ _
    omega
  · intro he
    rw [he] at h2
    simp at h2

theorem mem_poolAOf {o : SelOracle} {st : SelState} {l : List SItem} {x : SItem}
    (h : x ∈ poolAOf o st l) : x ∈ l := by
  simp only [poolAOf] at h
  have h1 := List.mem_of_mem_take (selectGroupByN_subset h)
  exact mem_focusPoolOf ((List.perm_insertionSort sigmaDesc (focusPoolOf l)).mem_iff.mp h1)

theorem poolAOf_ne_nil (o : SelOracle) (st : SelState) {l : List SItem}
    (h2 : 2 ≤ l.length) : poolAOf o st l ≠ [] := by
  simp only [poolAOf]
  apply selectGroupByN_ne_nil
  have hbu : (focusPoolOf l).insertionSort sigmaDesc ≠ [] := by
    intro he
    have hlen := (List.perm_insertionSort sigmaDesc (focusPoolOf l)).length_eq
    rw [he] at hlen
    exact focusPoolOf_ne_nil h2 (List.length_eq_zero.mp hlen.symm)
  apply take_ne_nil ?_ hbu
  have : 0 < ((focusPoolOf l).insertionSort sigmaDesc).length :=
    List.length_pos.mpr hbu
  omega

theorem mem_candOf {A : SItem} {l : List SItem} {c : Cand} (h : c ∈ candOf A l) :
    c.1 ∈ l ∧ c.1.id ≠ A.id := by
  simp only [candOf] at h
  have h1 := (List.perm_insertionSort candLe _).mem_iff.mp h
  obtain ⟨x, hx, rfl⟩ := List.mem_map.mp h1
  have := List.mem_filter.mp hx
  exact ⟨this.1, by simpa using this.2⟩

theorem candOf_ne_nil {A : SItem} {l : List SItem} (h : ∃ b ∈ l, b.id ≠ A.id) :
    candOf A l ≠ [] := by
  obtain ⟨b, hb, hbid⟩ := h
  have hmem : (b, |b.mu - A.mu|, b.sigma) ∈ candOf A l := by
    simp only [candOf]
    exact (List.perm_insertionSort candLe _).mem_iff.mpr
      (List.mem_map.mpr ⟨b, List.mem_filter.mpr ⟨hb, by simpa using hbid⟩, rfl⟩)
  exact List.ne_nil_of_mem hmem

theorem mem_poolBOf {A : SItem} {l : List SItem} {c : Cand} (h : c ∈ poolBOf A l) :
    c.1 ∈ l ∧ c.1.id ≠ A.id := by
  simp only [poolBOf] at h
  have h1 := List.mem_of_mem_take h
  split at h1
  · exact mem_candOf h1
  · exact mem_candOf (List.mem_of_mem_filter h1)

theorem poolBOf_ne_nil {A : SItem} {l : List SItem} (h : candOf A l ≠ []) :
    poolBOf A l ≠ [] := by
  simp only [poolBOf]
  split
  · exact take_ne_nil (by norm_num) h
  · rename_i hd
    refine take_ne_nil (by norm_num) ?_
    intro he
    rw [he] at hd
    simp at hd

theorem bubblePick_valid {o : SelOracle} {st : SelState} {banned : List String}
    {A : SItem} {l : List SItem} {B : SItem}
    (h : bubblePick o st banned A l = some B) : B ∈ l ∧ B.id ≠ A.id := by
  simp only [bubblePick] at h
  set bsrc := (if st.muPriority = MuPriority.lowest then l.reverse else l) with hbsrc
  set bids := (bsrc.take (max 10 st.topN + 20)).map SItem.id with hbids
  by_cases hin : A.id ∈ bids
  · rw [if_pos hin] at h
    set pb2 := (poolBOf A l).filter (fun c => decide (c.1.id ∈ bids)) with hpb2
    by_cases hemp : pb2.isEmpty
    · rw [if_pos hemp] at h; cases h
    · rw [if_neg hemp] at h
      have h1 := selectGroupByN_subset (pickOr_eq_some_mem h)
      obtain ⟨c, hc, rfl⟩ := List.mem_map.mp h1
      exact mem_poolBOf (List.mem_of_mem_filter hc)
  · rw [if_neg hin] at h; cases h

theorem activeSelect_ok (o : SelOracle) (st : SelState) (banned : List String)
    (l : List SItem) (h2 : 2 ≤ l.length) (hnd : (l.map SItem.id).Nodup) :
    ∃ p, activeSelect o st banned l = some p ∧
      p.1 ∈ l ∧ p.2 ∈ l ∧ p.2.id ≠ p.1.id := by
  obtain ⟨A, hA, hAmem⟩ := pickOr_isSome banned (poolAOf_ne_nil o st h2)
  have hAl : A ∈ l := mem_poolAOf hAmem
  have hcand : candOf A l ≠ [] := candOf_ne_nil (exists_ne_id hnd h2 hAl)
  have hpbmap : (poolBOf A l).map (fun c => c.1) ≠ [] := by
    intro he
    exact poolBOf_ne_nil hcand (List.map_eq_nil_iff.mp he)
  unfold activeSelect
  simp only [hA]
  cases hbp : (if st.mode = Mode.bubble then bubblePick o st banned A l else none) with
  | some B2 =>
    have hB2 : B2 ∈ l ∧ B2.id ≠ A.id := by
      by_cases hm : st.mode = Mode.bubble
      · rw [if_pos hm] at hbp; exact bubblePick_valid hbp
      · rw [if_neg hm] at hbp; cases hbp
    exact ⟨(A, B2), by simp only [hbp], hAl, hB2.1, hB2.2⟩
  | none =>
    obtain ⟨B, hB, hBmem⟩ := pickOr_isSome banned
      (selectGroupByN_ne_nil o.grpFinal st hpbmap)
    have h1 := selectGroupByN_subset hBmem
    obtain ⟨c, hc, rfl⟩ := List.mem_map.mp h1
    have hc2 := mem_poolBOf hc
    exact ⟨(A, c.1), by simp only [hbp, hB], hAl, hc2.1, hc2.2⟩

theorem tieAttempt_valid {rnd : ℕ} {st : SelState} {banned : List String}
    {pool : List SItem} {p : SItem × SItem}
    (h : tieAttempt rnd st banned pool = some p) :
    p.1 ∈ pool ∧ p.2 ∈ pool ∧ p.2.id ≠ p.1.id := by
  simp only [tieAttempt] at h
  split at h
  · cases h
  · split at h
    · cases h
    · rename_i f hf
      split at h
      · cases h
      · rename_i s hs
        cases h
        refine ⟨List.mem_of_mem_filter (pickOr_eq_some_mem hf), ?_, ?_⟩
        · exact List.mem_of_mem_filter (List.mem_of_mem_filter (pickOr_eq_some_mem hs))
        · have := (List.mem_filter.mp (pickOr_eq_some_mem hs)).2
          simpa using this

theorem tieLoop_valid {o : SelOracle} {st : SelState} {banned : List String}
    {l : List SItem} :
    ∀ (k : ℕ) (gs : List (ℚ × List SItem)),
      (∀ g ∈ gs, ∀ x ∈ g.2, x ∈ l) →
      ∀ p, tieLoop o st banned k gs = some p →
        p.1 ∈ l ∧ p.2 ∈ l ∧ p.2.id ≠ p.1.id := by
  intro k gs
  induction gs generalizing k with
  | nil => intro _ p h; cases h
  | cons g rest ih =>
    intro hsub p h
    have hpool : ∀ x ∈ applyWinsFilter g.2 st, x ∈ l := fun x hx =>
      hsub g (List.mem_cons_self _ _) x ((applyWinsFilter_sublist g.2 st).subset hx)
    simp only [tieLoop] at h
    split at h
    · rename_i q hq
      cases h
      have hv := tieAttempt_valid hq
      exact ⟨hpool _ hv.1, hpool _ hv.2.1, hv.2.2⟩
    · split at h
      · rename_i q hq
        cases h
        have hv := pickTwoFromPool_valid hq
        exact ⟨hpool _ hv.1, hpool _ hv.2.1, hv.2.2⟩
      · exact ih (k+1) (fun g' hg' => hsub g' (List.mem_cons_of_mem _ hg')) p h

theorem tieGroupsOf_sub {l : List SItem} :
    ∀ g ∈ tieGroupsOf l, ∀ x ∈ g.2, x ∈ l := by
  intro g hg x hx
  simp only [tieGroupsOf] at hg
  have h1 := List.mem_of_mem_filter hg
  obtain ⟨k, _, rfl⟩ := List.mem_map.mp h1
  exact List.mem_of_mem_filter hx

theorem mem_sortTieGroups {o : SelOracle} {st : SelState}
    {gs : List (ℚ × List SItem)} {g : ℚ × List SItem}
    (h : g ∈ sortTieGroups o st gs) : g ∈ gs := by
  unfold sortTieGroups at h
  cases hmp : st.muPriority <;> rw [hmp] at h
  · exact (List.perm_insertionSort groupMuDesc gs).mem_iff.mp h
  · exact (List.perm_insertionSort groupMuAsc gs).mem_iff.mp h
  · exact (shuffle_perm o.tieShuffle gs).mem_iff.mp h

/-- C2 counterexample.  In `random` mode the pool is first restricted to a
single `n`-bucket; with two eligible items of different comparison counts
the bucket is a singleton and `chooseNextPair` returns `null` even though
two items (with distinct ids) pass the wins filter. -/
theorem chooseNextPair_cex :
    2 ≤ (applyWinsFilter cexItems cexState).length ∧
    (cexItems.map SItem.id).Nodup ∧
    chooseNextPair oracle0 cexItems cexState = none :=
  ⟨by decide, by decide, by decide⟩

/-- C2 (amended).  For every pool with pairwise-distinct ids in which at
least two items pass the wins filter, and for modes `active`, `bubble` and
`resolve_ties` (any mu-priority, any n-strategy, any randomness),
`chooseNextPair` returns a pair of two items with distinct ids both present
in the input pool.  (In `random` mode the selector can return `null` with
two or more eligible items: see the counterexample.) -/
theorem chooseNextPair_valid (o : SelOracle) (items : List SItem) (st : SelState)
    (hnd : (items.map SItem.id).Nodup)
    (h2 : 2 ≤ (applyWinsFilter items st).length)
    (hm : st.mode ≠ Mode.random) :
    ∃ p, chooseNextPair o items st = some p ∧
      p.1 ∈ items ∧ p.2 ∈ items ∧ p.1.id ≠ p.2.id := by
  have hsub : (applyWinsFilter items st).Sublist items := applyWinsFilter_sublist items st
  have hlen2 : 2 ≤ items.length := le_trans h2 hsub.length_le
  have hprio := orderByMuPriority_perm o (applyWinsFilter items st) st
  have hpriolen : 2 ≤ (orderByMuPriority o (applyWinsFilter items st) st).length := by
    rw [hprio.length_eq]; exact h2
  have hpriond : ((orderByMuPriority o (applyWinsFilter items st) st).map SItem.id).Nodup :=
    ((hprio.map SItem.id).nodup_iff).mpr ((hsub.map SItem.id).nodup hnd)
  have hpriomem : ∀ x ∈ orderByMuPriority o (applyWinsFilter items st) st, x ∈ items :=
    fun x hx => hsub.subset (hprio.mem_iff.mp hx)
  simp only [chooseNextPair]
  rw [if_neg (by omega : ¬ items.length < 2),
    if_neg (by omega : ¬ (applyWinsFilter items st).length < 2)]
  cases htie : (if st.mode = Mode.resolve_ties
      then chooseTieResolutionPair o st (lastIdsOf st)
        (orderByMuPriority o (applyWinsFilter items st) st) else none) with
  | some p =>
    have hvalid : p.1 ∈ items ∧ p.2 ∈ items ∧ p.2.id ≠ p.1.id := by
      by_cases hmt : st.mode = Mode.resolve_ties
      · rw [if_pos hmt] at htie
        have hv := tieLoop_valid 0 _
          (fun g hg => tieGroupsOf_sub g (mem_sortTieGroups hg)) p htie
        exact ⟨hpriomem _ hv.1, hpriomem _ hv.2.1, hv.2.2⟩
      · rw [if_neg hmt] at htie; cases htie
    exact ⟨p, by simp only [htie], hvalid.1, hvalid.2.1, (hvalid.2.2).symm⟩
  | none =>
    obtain ⟨p, hp, hmem⟩ := activeSelect_ok o st (lastIdsOf st) _ hpriolen hpriond
    refine ⟨p, ?_, hpriomem _ hmem.1, hpriomem _ hmem.2.1, (hmem.2.2).symm⟩
    simp only [htie]
    rw [if_neg hm]
    exact hp

theorem chooseNextPair_valid_witness :
    ((cexItems.map SItem.id).Nodup ∧ 2 ≤ (applyWinsFilter cexItems witState).length ∧
      witState.mode ≠ Mode.random) ∧
    (∃ p, chooseNextPair oracle0 cexItems witState = some p ∧
      p.1 ∈ cexItems ∧ p.2 ∈ cexItems ∧ p.1.id ≠ p.2.id) :=
  ⟨⟨by decide, by decide, by decide⟩,
   chooseNextPair_valid oracle0 cexItems witState (by decide) (by decide) (by decide)⟩

end PrefArena
